import Mathlib

/-!
Shallow embedding of the map-collection persistence layer of the
Carte_interactive repository (`src/Poubelle/map-storage.js`), together with
theorems settling the claims of its natural-language specification.

Modelling conventions:
* JS record fields are given their domain types, wrapped in `Option`;
  `none` stands for an absent (`undefined`) field.  A field whose JS
  `typeof`-check can fail on a non-missing value of the wrong type is only
  modelled where a claim depends on it (marker latitude/longitude, marker id).
* JS numbers that matter to a claim are modelled by `JsNum`
  (NaN / infinities / finite rationals); `isNaN` is exact on this type.
* ISO-8601 timestamp strings are modelled by their epoch value (`Nat`):
  `new Date(a.created) - new Date(b.created)` on valid ISO strings is exactly
  the difference of epoch values, and a present ISO string is always truthy.
  `new Date` of an absent timestamp is NaN in JS; it is modelled as epoch 0
  (every claim that sorts by a timestamp supplies present timestamps).
* `localStorage` is modelled by `St`: the parsed content of the two keys
  (`mapCreator_maps`, `mapCreator_settings`) plus an injected schedule of
  write outcomes.  Each `setItem`/`removeItem` consumes one schedule entry;
  an exhausted schedule means the write succeeds.  `JSON.stringify` followed
  by `JSON.parse` is the identity on the stored data, so the store holds the
  structured values directly.
* `Date.now()`, `new Date().toISOString()` and the random id suffix are
  nondeterministic inputs of the program; they are passed as explicit
  parameters (`now`, generated-id arguments).
* Operations that can throw return `Except JsError α × St`: the `St`
  component is the store state when the function returns or throws, and a
  caught-and-swallowed exception yields an `Except.ok` result, exactly as the
  JS `try/catch` blocks do.
-/

namespace MapStorage

/-- A JS number: NaN, the two infinities, or a finite value. -/
inductive JsNum where
  | nan
  | posInf
  | negInf
  | fin (q : ℚ)
deriving DecidableEq

/-- A non-`undefined` JS value, used for fields whose type is unconstrained
(the marker `id` may be numeric or string). -/
inductive JsVal where
  | num (n : JsNum)
  | str (s : String)
  | boolean (b : Bool)
  | jsNull
deriving DecidableEq

/-- `isNaN(v)` for an optional JS number (`none` = absent). -/
def jsIsNaN : Option JsNum → Bool
  | some .nan => true
  | _ => false

/-- `typeof v === 'number'` for an optional JS number field: the field is
present (a non-number present value is modelled as `none` as well, since the
validator treats both identically). -/
def isNumber : Option JsNum → Bool
  | none => false
  | some _ => true

/-- JS truthiness of an optional string field: present and non-empty. -/
def truthyStr : Option String → Bool
  | none => false
  | some s => s != ""

/-- JS truthiness of an optional numeric field: present and non-zero
(`0` is falsy in JS). -/
def jsTruthyNum : Option Nat → Bool
  | none => false
  | some n => n != 0

/-- A marker record (`markers` array entry).  `created` is an epoch value,
see the header. -/
structure Marker where
  id : Option JsVal := none
  titre : Option String := none
  description : Option String := none
  lat : Option JsNum := none
  lon : Option JsNum := none
  couleur : Option String := none
  icone : Option String := none
  created : Option Nat := none
deriving DecidableEq

/-- A map record as stored in the collection.  Timestamps are epoch values,
see the header. -/
structure RawMap where
  id : Option String := none
  title : Option String := none
  created : Option Nat := none
  modified : Option Nat := none
  version : Option String := none
  center : Option (ℚ × ℚ) := none
  zoom : Option Nat := none
  layer : Option String := none
  markers : Option (List Marker) := none
  imported : Option Nat := none
deriving DecidableEq

/-- `MapStorage.MAX_MAPS`. -/
def MAX_MAPS : Nat := 50

/-- `MapStorage.VERSION`. -/
def VERSION : String := "1.0.0"

/-- `MapStorage.validateMarkerData` (map-storage.js, lines 238-247): the
early-return chain is the conjunction of its checks.  The argument is
`none` when the value is not an object (`!markerData || typeof markerData
!== 'object'`). -/
def validateMarkerData : Option Marker → Bool
  | none => false
  | some m =>
      m.id.isSome &&
      truthyStr m.titre &&
      (isNumber m.lat && !jsIsNaN m.lat) &&
      (isNumber m.lon && !jsIsNaN m.lon) &&
      (truthyStr m.couleur && truthyStr m.icone)

/-- `MapStorage.validateMapData` (map-storage.js, lines 213-231): the
early-return chain is the conjunction of its checks; the marker loop only
logs a warning and never affects the verdict.  Stored entries are modelled
as `RawMap` structures, so the `typeof mapData !== 'object'` branch is not
exercised (a claim never feeds a non-object stored entry). -/
def validateMapData (m : RawMap) : Bool :=
  truthyStr m.id && truthyStr m.title && m.created.isSome && m.modified.isSome

/-- The settings object, modelled as a key-value list (no claim inspects
individual settings). -/
abbrev SettingsVal := List (String × String)

/-- JS object spread `\x7b...a, ...b\x7d`: keys of `b` win. -/
def jsSpread (a b : SettingsVal) : SettingsVal :=
  a.filter (fun kv => !(b.any (fun kv2 => kv2.1 == kv.1))) ++ b

/-- `MapStorage.getDefaultSettings` / the default object in `getSettings`. -/
def defaultSettings : SettingsVal :=
  [("theme", "light"), ("defaultMapCenter", "46.603354,1.888334"),
   ("defaultZoom", "6"), ("defaultLayer", "standard"), ("autoSave", "true"),
   ("showTooltips", "true"), ("language", "fr")]

/-- A thrown JS error: its `name` and `message`. -/
structure JsError where
  name : String
  message : String
deriving DecidableEq

/-- The storage state: parsed content of the maps key and of the settings
key (`none` = key absent), plus the injected schedule of store-write
outcomes (`none` = the write succeeds, `some n` = the write throws an error
named `n`); an exhausted schedule means writes succeed. -/
structure St where
  maps : Option (List RawMap)
  settings : Option SettingsVal
  failures : List (Option String)
deriving DecidableEq

/-- Consume the next injected write outcome. -/
def popFailure : St → Option String × St
  | ⟨m, s, []⟩ => (none, ⟨m, s, []⟩)
  | ⟨m, s, f :: fs⟩ => (f, ⟨m, s, fs⟩)

/-- `localStorage.setItem(STORAGE_KEY, JSON.stringify(v))`. -/
def setItemMaps (v : List RawMap) (st : St) : Except JsError Unit × St :=
  match popFailure st with
  | (none, st1) => (.ok (), { st1 with maps := some v })
  | (some n, st1) => (.error ⟨n, "storage write failed"⟩, st1)

/-- `localStorage.setItem(SETTINGS_KEY, JSON.stringify(v))`. -/
def setItemSettings (v : SettingsVal) (st : St) : Except JsError Unit × St :=
  match popFailure st with
  | (none, st1) => (.ok (), { st1 with settings := some v })
  | (some n, st1) => (.error ⟨n, "storage write failed"⟩, st1)

/-- `localStorage.removeItem(STORAGE_KEY)`. -/
def removeItemMaps (st : St) : Except JsError Unit × St :=
  match popFailure st with
  | (none, st1) => (.ok (), { st1 with maps := none })
  | (some n, st1) => (.error ⟨n, "storage write failed"⟩, st1)

/-- `MapStorage.getAllMaps` (lines 118-132): read, parse, filter through
`validateMapData`; an absent key yields `[]`.  (The `catch` branch for a
corrupt JSON payload also yields `[]`; corrupt payloads are not modelled, no
claim needs them.) -/
def getAllMaps (st : St) : List RawMap :=
  match st.maps with
  | none => []
  | some data => data.filter validateMapData

/-- Epoch value of `new Date(m.created)` (0 for an absent timestamp, see the
header). -/
def createdVal (m : RawMap) : Nat := m.created.getD 0

/-- Epoch value of `new Date(m.modified)`. -/
def modifiedVal (m : RawMap) : Nat := m.modified.getD 0

/-- The sort comparator `(a, b) => new Date(a.created) - new Date(b.created)`
(ascending by creation time), as the Boolean order a stable sort consumes. -/
def byCreated (a b : RawMap) : Bool := createdVal a ≤ createdVal b

/-- The sort comparator `(a, b) => new Date(b.modified) - new Date(a.modified)`
(descending by modification time). -/
def byModifiedDesc (a b : RawMap) : Bool := modifiedVal b ≤ modifiedVal a

/-- `MapStorage.enforceMapLimit` (lines 97-108): above the cap, sort
ascending by `created` and drop the oldest excess. -/
def enforceMapLimit (maps : List RawMap) : List RawMap :=
  if maps.length > MAX_MAPS then
    (maps.mergeSort byCreated).drop (maps.length - MAX_MAPS)
  else maps

/-- `MapStorage.generateMapId` (lines 86-91): timestamp plus random suffix. -/
def generateMapId (nowMs : Nat) (rand : String) : String :=
  "map_" ++ toString nowMs ++ "_" ++ rand

/-- `MapStorage.handleStorageQuotaExceeded` (lines 435-454): with more than
10 stored maps, remove the oldest `Math.floor(length * 0.25)` of them
(`length * 0.25` is exact in floating point, so the count is `length / 4`)
and write back; a failure of that write is caught and only logged. -/
def handleStorageQuotaExceeded (st : St) : St :=
  let maps := getAllMaps st
  if maps.length > 10 then
    let toRemove := maps.length / 4
    let remaining := (maps.mergeSort byCreated).drop toRemove
    (setItemMaps remaining st).2
  else st

/-- The version/`modified` stamp applied by `saveMap` before persisting. -/
def stamp (now : Nat) (m : RawMap) : RawMap :=
  { m with version := some VERSION, modified := some now }

/-- `MapStorage.saveMap` (lines 31-80).  `genId` is the id `generateMapId`
would produce for this call; `now` the current time.  On a
`QuotaExceededError` from the store the remediation pass runs and an
`Error` with a capacity message is thrown; on any other write failure an
`Error` with a generic message is thrown. -/
def saveMap (mapData : RawMap) (genId : String) (now : Nat) (st : St) :
    Except JsError String × St :=
  let mapData := if truthyStr mapData.id then mapData
    else { mapData with id := some genId }
  let mapData := stamp now mapData
  let existingMaps := getAllMaps st
  let newMaps :=
    match existingMaps.findIdx? (fun m => m.id == mapData.id) with
    | some i => existingMaps.set i mapData
    | none => enforceMapLimit (existingMaps ++ [mapData])
  match setItemMaps newMaps st with
  | (.ok _, st1) => (.ok (mapData.id.getD ""), st1)
  | (.error e, st1) =>
      if e.name == "QuotaExceededError" then
        (.error ⟨"Error",
          "Espace de stockage insuffisant. Supprimez quelques cartes anciennes."⟩,
         handleStorageQuotaExceeded st1)
      else
        (.error ⟨"Error", "Impossible de sauvegarder la carte"⟩, st1)

/-- Saving a list of maps one after the other (each call a fresh save, the
generated-id argument is unused when every map carries an id). -/
def saveAllNew (l : List RawMap) (now : Nat) (st : St) : St :=
  l.foldl (fun s mm => (saveMap mm "" now s).2) st

/-- `MapStorage.getMapById` (lines 139-142). -/
def getMapById (mapId : String) (st : St) : Option RawMap :=
  (getAllMaps st).find? (fun m => m.id == some mapId)

/-- `MapStorage.getRecentMaps` (lines 149-155). -/
def getRecentMaps (limit : Nat) (st : St) : List RawMap :=
  ((getAllMaps st).mergeSort byModifiedDesc).take limit

/-- `MapStorage.deleteMap` (lines 166-187): the `catch` branch returns
`false`, so a store-write failure is swallowed. -/
def deleteMap (mapId : String) (st : St) : Except JsError Bool × St :=
  let allMaps := getAllMaps st
  let filteredMaps := allMaps.filter (fun m => m.id != some mapId)
  if filteredMaps.length == allMaps.length then (.ok false, st)
  else
    match setItemMaps filteredMaps st with
    | (.ok _, st1) => (.ok true, st1)
    | (.error _, st1) => (.ok false, st1)

/-- `MapStorage.deleteAllMaps` (lines 193-202): the `catch` branch returns
`false`. -/
def deleteAllMaps (st : St) : Except JsError Bool × St :=
  match removeItemMaps st with
  | (.ok _, st1) => (.ok true, st1)
  | (.error _, st1) => (.ok false, st1)

/-- `MapStorage.getSettings` (lines 274-296): defaults overridden by the
stored object. -/
def getSettings (st : St) : SettingsVal :=
  match st.settings with
  | none => defaultSettings
  | some saved => jsSpread defaultSettings saved

/-- `MapStorage.saveSettings` (lines 257-268): merge into current settings
and persist; a write failure is caught and only logged. -/
def saveSettings (s : SettingsVal) (st : St) : St :=
  let updated := jsSpread (getSettings st) s
  (setItemSettings updated st).2

/-- The `maps` field of a parsed import payload: absent/falsy, present but
not an array, or an array of records. -/
inductive MapsField where
  | missing
  | notArray
  | arr (l : List RawMap)
deriving DecidableEq

/-- A parsed import envelope. -/
structure Envelope where
  maps : MapsField
  settings : Option SettingsVal
deriving DecidableEq

/-- The result object of `importMaps`. -/
structure ImportResult where
  imported : Nat
  skipped : Nat
  total : Nat
deriving DecidableEq

/-- The `importData.maps.forEach` loop of `importMaps` (lines 505-522):
returns the appended records, the imported count and the skipped count.
`gen j` is the id produced by the `j`-th call to `generateMapId` (the
generator is called only for valid records). -/
def importLoop (gen : Nat → String) (now : Nat) :
    List RawMap → Nat → List RawMap × Nat × Nat
  | [], _ => ([], 0, 0)
  | m :: rest, j =>
      if validateMapData m then
        let importedMap := { m with id := some (gen j),
                                    imported := some now, modified := some now }
        let out := importLoop gen now rest (j + 1)
        (importedMap :: out.1, out.2.1 + 1, out.2.2)
      else
        let out := importLoop gen now rest j
        (out.1, out.2.1, out.2.2 + 1)

/-- `MapStorage.importMaps` (lines 490-550).  `payload` is the result of
`JSON.parse` (`none` = the input was not valid JSON, in which case the
`SyntaxError` escapes `JSON.parse` and the `catch` block rethrows it).  A
missing or non-array `maps` field throws `Error('Format de fichier
invalide')`, rethrown by the `catch` block.  Otherwise each structurally
valid record is re-identified, stamped and appended, the cap is enforced
once, the collection is written, and settings are merged if present. -/
def importMaps (payload : Option Envelope) (replace : Bool)
    (gen : Nat → String) (now : Nat) (st : St) :
    Except JsError ImportResult × St :=
  match payload with
  | none => (.error ⟨"SyntaxError", "Unexpected token in JSON"⟩, st)
  | some importData =>
      match importData.maps with
      | .missing => (.error ⟨"Error", "Format de fichier invalide"⟩, st)
      | .notArray => (.error ⟨"Error", "Format de fichier invalide"⟩, st)
      | .arr incoming =>
          let existingMaps := if replace then [] else getAllMaps st
          let out := importLoop gen now incoming 0
          let finalMaps := enforceMapLimit (existingMaps ++ out.1)
          match setItemMaps finalMaps st with
          | (.error e, st1) => (.error e, st1)
          | (.ok _, st1) =>
              let st2 :=
                if importData.settings.isSome && !replace then
                  saveSettings
                    (jsSpread (getSettings st1) (importData.settings.getD []))
                    st1
                else st1
              (.ok ⟨out.2.1, out.2.2, finalMaps.length⟩, st2)

/-- `[46.603354, 1.888334]`, the default center applied by migration. -/
def defaultCenter : ℚ × ℚ := (46603354 / 1000000, 1888334 / 1000000)

/-- `MapStorage.applyMigrations` (lines 779-805): backfill `created`,
`modified`, `center`, `zoom` and marker `created` fields when falsy.  The
version arguments of the source function are unused by its body. -/
def applyMigrations (now : Nat) (m : RawMap) : RawMap :=
  let m := if m.created.isSome then m else { m with created := some now }
  let m := if m.modified.isSome then m else { m with modified := m.created }
  let m := if m.center.isSome then m else { m with center := some defaultCenter }
  let m := if jsTruthyNum m.zoom then m else { m with zoom := some 6 }
  match m.markers with
  | none => m
  | some ms =>
      { m with markers := some (ms.map (fun mk =>
          if mk.created.isSome then mk else { mk with created := m.created })) }

/-- The migration trigger `!map.version || map.version !== toVersion`. -/
def needsMigration (toVersion : String) (m : RawMap) : Bool :=
  !truthyStr m.version || m.version != some toVersion

/-- `MapStorage.migrateMaps` (lines 744-771): backfill and restamp every
record that needs migration, and persist only when at least one record was
migrated.  Returns the pair (migrated count, total).  `fromVersion` is
accepted and ignored, as in the source. -/
def migrateMaps (fromVersion toVersion : String) (now : Nat) (st : St) :
    Except JsError (Nat × Nat) × St :=
  let maps := getAllMaps st
  let migrated := maps.map (fun m =>
    if needsMigration toVersion m then
      { applyMigrations now m with version := some toVersion }
    else m)
  let migratedCount := (maps.filter (needsMigration toVersion)).length
  if migratedCount > 0 then
    match setItemMaps migrated st with
    | (.ok _, st1) => (.ok (migratedCount, maps.length), st1)
    | (.error e, st1) => (.error e, st1)
  else (.ok (migratedCount, maps.length), st)

/-- Replace the title and `modified` stamp of the first record carrying the
given id. -/
def renameInList (mapId newTitle : String) (now : Nat) :
    List RawMap → List RawMap
  | [] => []
  | m :: rest =>
      if m.id == some mapId then
        { m with title := some newTitle, modified := some now } :: rest
      else m :: renameInList mapId newTitle now rest

/-- Modelled from the spec: `MapStorage.renameMap` is invoked by the map-list
page (`executeMapRename`, `src/unnamed/part_002` lines 508-513) but no
implementation exists under `src/`.  Spec section 4.3: `rename(id, newTitle)`
is a no-op if the id is not found; otherwise it updates `title` and
`modified`.  The write goes through the Repository's usual write path. -/
def renameMap (mapId newTitle : String) (now : Nat) (st : St) :
    Except JsError Unit × St :=
  let allMaps := getAllMaps st
  if allMaps.any (fun m => m.id == some mapId) then
    match setItemMaps (renameInList mapId newTitle now allMaps) st with
    | (.ok _, st1) => (.ok (), st1)
    | (.error e, st1) => (.error e, st1)
  else (.ok (), st)

/-! ### Concrete fixtures used by counterexamples and witnesses -/

/-- The marker of the spec's validation-gate example with latitude 100. -/
def markerLat100 : Marker :=
  { id := some (.num (.fin 1)), titre := some "x", lat := some (.fin 100),
    lon := some (.fin 0), couleur := some "red", icone := some "🍴" }

/-- The marker of the spec's validation-gate example with latitude 10. -/
def markerLat10 : Marker :=
  { id := some (.num (.fin 1)), titre := some "x", lat := some (.fin 10),
    lon := some (.fin 10), couleur := some "red", icone := some "🍴" }

/-- A minimal valid stored map record with the given id and timestamp. -/
def mkValidMap (i : String) (t : Nat) : RawMap :=
  { id := some i, title := some "t", created := some t, modified := some t }

/-- A one-record store whose next write fails with a non-quota error. -/
def stFailDelete : St :=
  { maps := some [mkValidMap "a" 1], settings := none,
    failures := [some "SecurityError"] }

/-- A healthy one-record store (all writes succeed). -/
def stOne : St :=
  { maps := some [mkValidMap "a" 1], settings := none, failures := [] }

/-- A store physically holding a single record with id `x` that fails map
validation (empty title). -/
def stInvalidRec : St :=
  { maps := some [{ id := some "x", title := some "",
                    created := some 1, modified := some 1 }],
    settings := none, failures := [] }

/-- A valid record whose `zoom` field is present but 0 (JS-falsy) and whose
`version` is absent. -/
def mZoomZero : RawMap :=
  { id := some "z", title := some "t", created := some 1, modified := some 1,
    version := none, center := some (1, 2), zoom := some 0 }

/-- A healthy store holding only `mZoomZero`. -/
def stZoomZero : St :=
  { maps := some [mZoomZero], settings := none, failures := [] }

/-- An import batch holding one valid record and one invalid record. -/
def importIncoming : List RawMap :=
  [mkValidMap "s1" 5, { title := some "bad" }]

/-- A concrete run of the id generator for the import witness. -/
def genW : Nat → String := fun _ => "gid"

/-- Twenty valid maps with creation times 0..19. -/
def maps20 : List RawMap := (List.range 20).map (fun t => mkValidMap "a" t)

/-- A store of 20 maps whose next write fails with a quota error (and whose
remediation write succeeds). -/
def st20 : St :=
  { maps := some maps20, settings := none,
    failures := [some "QuotaExceededError", none] }

/-- Eight valid maps with creation times 0..7. -/
def maps8 : List RawMap := (List.range 8).map (fun t => mkValidMap "a" t)

/-- A store of 8 maps whose next write fails with a quota error. -/
def st8 : St :=
  { maps := some maps8, settings := none,
    failures := [some "QuotaExceededError", none] }

/-- Hypotheses of the cap-enforcement claim on the records involved: all
valid, with pairwise-distinct creation times and pairwise-distinct ids. -/
abbrev GoodInput (L : List RawMap) : Prop :=
  (∀ x ∈ L, validateMapData x = true) ∧
  (L.map createdVal).Nodup ∧ (L.map RawMap.id).Nodup

/-- Invariant of the sequential-insert eviction proof: after saving the
prefix `P` of new maps on top of the initial collection `C`, the stored
list `S` holds validated records whose creation times and ids come from
`C ++ P`, has `min (C ++ P).length MAX_MAPS` entries with pairwise-distinct
creation times, and every record of `C ++ P` whose creation time is absent
from `S` is strictly older than every record of `S`. -/
def SaveInv (C P S : List RawMap) : Prop :=
  (∀ x ∈ S, validateMapData x = true) ∧
  (∀ x ∈ S, createdVal x ∈ (C ++ P).map createdVal) ∧
  (∀ x ∈ S, x.id ∈ (C ++ P).map RawMap.id) ∧
  S.length = min (C ++ P).length MAX_MAPS ∧
  (S.map createdVal).Nodup ∧
  (∀ x ∈ C ++ P, createdVal x ∉ S.map createdVal →
    ∀ s ∈ S, createdVal x < createdVal s)

/-- `MAX_MAPS + 1` distinct valid maps with creation times 0..MAX_MAPS. -/
def c4maps : List RawMap :=
  (List.range (MAX_MAPS + 1)).map (fun t => mkValidMap ("m" ++ toString t) t)

/-! ### Basic lemmas about the embedding -/

theorem truthyStr_iff (o : Option String) :
    truthyStr o = true ↔ ∃ s, o = some s ∧ s ≠ "" := by
  cases o <;> simp [truthyStr]

theorem numberNotNaN_iff (o : Option JsNum) :
    (isNumber o = true ∧ (!jsIsNaN o) = true) ↔
      ∃ a, o = some a ∧ a ≠ JsNum.nan := by
  cases o with
  | none => simp [isNumber]
  | some a => cases a <;> simp [isNumber, jsIsNaN]

theorem validateMapData_iff (m : RawMap) :
    validateMapData m = true ↔
      truthyStr m.id = true ∧ truthyStr m.title = true ∧
      m.created.isSome = true ∧ m.modified.isSome = true := by
  simp [validateMapData, and_assoc]

theorem getAllMaps_eq_self (l : List RawMap) (sett : Option SettingsVal)
    (fl : List (Option String)) (h : ∀ x ∈ l, validateMapData x = true) :
    getAllMaps ⟨some l, sett, fl⟩ = l := by
  simpa [getAllMaps] using List.filter_eq_self.mpr h

theorem stamp_id (now : Nat) (m : RawMap) : (stamp now m).id = m.id := rfl

theorem stamp_created (now : Nat) (m : RawMap) :
    (stamp now m).created = m.created := rfl

theorem createdVal_stamp (now : Nat) (m : RawMap) :
    createdVal (stamp now m) = createdVal m := rfl

theorem validateMapData_stamp (now : Nat) (m : RawMap)
    (h : validateMapData m = true) : validateMapData (stamp now m) = true := by
  rw [validateMapData_iff] at h ⊢
  exact ⟨h.1, h.2.1, h.2.2.1, rfl⟩

/-! ### C1: the marker validator -/

/-- C1 counterexample: the storage-layer marker validator
(`MapStorage.validateMarkerData`) accepts the record with latitude 100 that
the claim says it must reject (the function checks only that `lat` is a
non-NaN number, with no range or finiteness bound). -/
theorem C1_counterexample : validateMarkerData (some markerLat100) = true := by
  decide

/-- C1 (amended): the marker validator returns true iff the record is an
object whose `id` is defined, whose `titre` is a non-empty string, whose
`lat` and `lon` are numbers other than NaN (no `[-90, 90]` / `[-180, 180]`
range bound and no finiteness check), and whose `couleur` and `icone` are
non-empty; in particular both spec example records (latitude 100 and
latitude 10) validate to true. -/
theorem C1_marker_validator :
    (∀ m : Marker, validateMarkerData (some m) = true ↔
      (m.id.isSome = true ∧
       (∃ t, m.titre = some t ∧ t ≠ "") ∧
       (∃ a, m.lat = some a ∧ a ≠ JsNum.nan) ∧
       (∃ b, m.lon = some b ∧ b ≠ JsNum.nan) ∧
       (∃ c, m.couleur = some c ∧ c ≠ "") ∧
       (∃ ic, m.icone = some ic ∧ ic ≠ ""))) ∧
    validateMarkerData none = false ∧
    validateMarkerData (some markerLat100) = true ∧
    validateMarkerData (some markerLat10) = true := by
  refine ⟨fun m => ?_, rfl, by decide, by decide⟩
  simp only [validateMarkerData, Bool.and_eq_true]
  rw [truthyStr_iff, truthyStr_iff, truthyStr_iff, numberNotNaN_iff,
    numberNotNaN_iff]
  tauto

/-! ### C7: malformed import payloads -/

/-- C7: an import payload that is not valid JSON, or whose `maps` field is
missing or not an array, makes `importMaps` fail with the propagated
format/syntax error and leaves the entire store state — collection and
settings alike — unchanged (the error is thrown before any write). -/
theorem C7_import_format_error (st : St) (replace : Bool)
    (gen : Nat → String) (now : Nat) :
    importMaps none replace gen now st
      = (.error ⟨"SyntaxError", "Unexpected token in JSON"⟩, st) ∧
    (∀ sF, importMaps (some ⟨.missing, sF⟩) replace gen now st
      = (.error ⟨"Error", "Format de fichier invalide"⟩, st)) ∧
    (∀ sF, importMaps (some ⟨.notArray, sF⟩) replace gen now st
      = (.error ⟨"Error", "Format de fichier invalide"⟩, st)) :=
  ⟨rfl, fun _ => rfl, fun _ => rfl⟩

/-! ### C3: propagation of store-write failures -/

/-- C3 counterexample: with record `a` present and the next store write
failing, `deleteMap` returns plain `false` — indistinguishable from the
benign id-not-found result — instead of propagating the failure as an
error, contradicting the claim that every write failure of save, delete and
deleteAll is surfaced as an explicit error. -/
theorem C3_counterexample :
    deleteMap "a" stFailDelete
      = (.ok false, { maps := some [mkValidMap "a" 1], settings := none,
                      failures := [] }) := rfl

/-- C3 (amended): when the underlying store write fails, `saveMap`
propagates an explicit error to the caller, but `deleteMap` (on a present
id) and `deleteAllMaps` catch the failure and return `false`, leaving the
stored collection unchanged — the failure is reported only through the
Boolean result, not as an error. -/
theorem C3_write_failure_propagation (st : St) (m : RawMap) (gid : String)
    (now : Nat) (i : String) (en : String) (rest : List (Option String))
    (hsched : st.failures = some en :: rest)
    (hpres : ∃ r ∈ getAllMaps st, r.id = some i) :
    (∃ e, (saveMap m gid now st).1 = Except.error e) ∧
    (deleteMap i st).1 = .ok false ∧
    (deleteMap i st).2.maps = st.maps ∧
    (deleteAllMaps st).1 = .ok false ∧
    (deleteAllMaps st).2.maps = st.maps := by
  obtain ⟨mp, sett, fl⟩ := st
  simp only at hsched
  subst hsched
  have hset : ∀ v : List RawMap, setItemMaps v ⟨mp, sett, some en :: rest⟩
      = (.error ⟨en, "storage write failed"⟩, ⟨mp, sett, rest⟩) :=
    fun _ => rfl
  have hne : ¬(((getAllMaps ⟨mp, sett, some en :: rest⟩).filter
      (fun m => m.id != some i)).length
      == (getAllMaps ⟨mp, sett, some en :: rest⟩).length) = true := by
    simp only [beq_iff_eq]
    intro hlen
    obtain ⟨r, hr, hid⟩ := hpres
    have := (List.filter_length_eq_length.mp hlen) r hr
    simp [hid] at this
  have hdel : deleteMap i ⟨mp, sett, some en :: rest⟩
      = (.ok false, ⟨mp, sett, rest⟩) := by
    simp only [deleteMap, hset]
    rw [if_neg hne]
  refine ⟨?_, ?_, ?_, ?_, ?_⟩
  · simp only [saveMap, hset]
    split <;> exact ⟨_, rfl⟩
  · rw [hdel]
  · rw [hdel]
  · rfl
  · rfl

/-- C3 witness: the amended theorem applied to the concrete one-record
store whose next write fails. -/
theorem C3_write_failure_witness :
    (∃ e, (saveMap (mkValidMap "b" 2) "g" 9 stFailDelete).1 = Except.error e) ∧
    (deleteMap "a" stFailDelete).1 = .ok false ∧
    (deleteMap "a" stFailDelete).2.maps = stFailDelete.maps ∧
    (deleteAllMaps stFailDelete).1 = .ok false ∧
    (deleteAllMaps stFailDelete).2.maps = stFailDelete.maps :=
  C3_write_failure_propagation stFailDelete (mkValidMap "b" 2) "g" 9 "a"
    "SecurityError" [] rfl ⟨mkValidMap "a" 1, by decide, by decide⟩

/-! ### C10: read operations return only validated records -/

theorem mem_getAllMaps_valid (st : St) :
    ∀ m ∈ getAllMaps st, validateMapData m = true := by
  intro m hm
  unfold getAllMaps at hm
  cases h : st.maps with
  | none => rw [h] at hm; cases hm
  | some l => rw [h] at hm; exact List.of_mem_filter hm

/-- C10: every record returned by `getAllMaps`, `getMapById` and
`getRecentMaps` passes the map validator, and `getMapById` returns `null`
whenever every stored record carrying the requested id fails validation —
such records stay physically in the stored list (the read operations are
pure functions of the state in this embedding and never rewrite the
store). -/
theorem C10_reads_validated (st : St) (i : String) (lim : Nat) :
    (∀ m ∈ getAllMaps st, validateMapData m = true) ∧
    (∀ m, getMapById i st = some m → validateMapData m = true) ∧
    (∀ m ∈ getRecentMaps lim st, validateMapData m = true) ∧
    (∀ l, st.maps = some l →
      (∀ r ∈ l, r.id = some i → validateMapData r = false) →
      getMapById i st = none) := by
  refine ⟨mem_getAllMaps_valid st, ?_, ?_, ?_⟩
  · intro m hm
    exact mem_getAllMaps_valid st m (List.mem_of_find?_eq_some hm)
  · intro m hm
    have h1 : m ∈ (getAllMaps st).mergeSort byModifiedDesc :=
      List.mem_of_mem_take hm
    have h2 : m ∈ getAllMaps st :=
      (List.mergeSort_perm (getAllMaps st) byModifiedDesc).mem_iff.mp h1
    exact mem_getAllMaps_valid st m h2
  · intro l hl hinv
    unfold getMapById
    rw [List.find?_eq_none]
    intro x hx hpx
    have hvx : validateMapData x = true := mem_getAllMaps_valid st x hx
    have hxl : x ∈ l := by
      unfold getAllMaps at hx
      rw [hl] at hx
      exact List.mem_of_mem_filter hx
    have hxid : x.id = some i := by simpa using hpx
    rw [hinv x hxl hxid] at hvx
    cases hvx

/-- C10 witness: on the store holding only an invalid record with id `x`,
`getMapById "x"` is `null` although the record is physically stored. -/
theorem C10_reads_validated_witness :
    getMapById "x" stInvalidRec = none ∧
    stInvalidRec.maps = some [{ id := some "x", title := some "",
                                created := some 1, modified := some 1 }] :=
  ⟨(C10_reads_validated stInvalidRec "x" 0).2.2.2 _ rfl (by decide), rfl⟩

/-! ### C2: the rename operation (spec-modelled) -/

theorem renameInList_valid (i t : String) (now : Nat) (ht : t ≠ "") :
    ∀ l : List RawMap, (∀ x ∈ l, validateMapData x = true) →
      ∀ x ∈ renameInList i t now l, validateMapData x = true := by
  intro l
  induction l with
  | nil => intro _ x hx; cases hx
  | cons m rest ih =>
    intro hall x hx
    unfold renameInList at hx
    by_cases h : (m.id == some i) = true
    · rw [if_pos h] at hx
      rcases List.mem_cons.mp hx with hx | hx
      · have hm := hall m (List.mem_cons_self m rest)
        rw [validateMapData_iff] at hm ⊢
        subst hx
        refine ⟨hm.1, ?_, hm.2.2.1, rfl⟩
        simpa [truthyStr] using ht
      · exact hall x (List.mem_cons_of_mem m hx)
    · rw [if_neg h] at hx
      rcases List.mem_cons.mp hx with hx | hx
      · exact hx ▸ hall m (List.mem_cons_self m rest)
      · exact ih (fun y hy => hall y (List.mem_cons_of_mem m hy)) x hx

theorem find?_renameInList (i t : String) (now : Nat) (l : List RawMap) :
    (renameInList i t now l).find? (fun x => x.id == some i)
      = (l.find? (fun x => x.id == some i)).map
          (fun r => { r with title := some t, modified := some now }) := by
  induction l with
  | nil => rfl
  | cons m rest ih =>
    by_cases h : (m.id == some i) = true
    · simp [renameInList, h, List.find?_cons]
    · simp [renameInList, h, List.find?_cons, ih]

/-- C2: the Repository's rename operation: for every id and new title,
when no Collection record carries the id, rename returns without an error
and leaves the whole store state unchanged; when a record carries the id,
rename succeeds and `getMapById` subsequently returns that record with its
`title` and `modified` fields updated.  (`renameMap` is modelled from the
spec; only its caller exists under `src/`.) -/
theorem C2_rename_contract (st : St) (i t : String) (now : Nat)
    (hfail : st.failures = []) (ht : t ≠ "") :
    ((∀ r ∈ getAllMaps st, r.id ≠ some i) →
      renameMap i t now st = (.ok (), st)) ∧
    (∀ r, (getAllMaps st).find? (fun x => x.id == some i) = some r →
      (renameMap i t now st).1 = .ok () ∧
      getMapById i (renameMap i t now st).2
        = some { r with title := some t, modified := some now }) := by
  obtain ⟨mp, sett, fl⟩ := st
  simp only at hfail
  subst hfail
  constructor
  · intro hmiss
    have hany : (getAllMaps ⟨mp, sett, []⟩).any (fun m => m.id == some i)
        = false := by
      rw [List.any_eq_false]
      intro x hx
      simpa using hmiss x hx
    simp only [renameMap, hany]
    rfl
  · intro r hr
    have hmem : r ∈ getAllMaps ⟨mp, sett, []⟩ := List.mem_of_find?_eq_some hr
    have hpr := List.find?_some hr
    have hany : (getAllMaps ⟨mp, sett, []⟩).any (fun m => m.id == some i)
        = true :=
      List.any_eq_true.mpr ⟨r, hmem, hpr⟩
    have hout : renameMap i t now ⟨mp, sett, []⟩
        = (.ok (), ⟨some (renameInList i t now (getAllMaps ⟨mp, sett, []⟩)),
                    sett, []⟩) := by
      simp only [renameMap, hany]
      rfl
    refine ⟨by rw [hout], ?_⟩
    rw [hout]
    unfold getMapById
    rw [getAllMaps_eq_self _ _ _
      (renameInList_valid i t now ht _ (mem_getAllMaps_valid _))]
    rw [find?_renameInList, hr]
    rfl

/-- C2 witness: the contract applied to the healthy one-record store, for a
missing id (no-op, no error) and for the present id `a`. -/
theorem C2_rename_contract_witness :
    renameMap "zzz" "T" 5 stOne = (.ok (), stOne) ∧
    getMapById "a" (renameMap "a" "T" 5 stOne).2
      = some { mkValidMap "a" 1 with
          title := some "T"
          modified := some 5 } :=
  ⟨(C2_rename_contract stOne "zzz" "T" 5 rfl (by decide)).1 (by decide),
   ((C2_rename_contract stOne "a" "T" 5 rfl (by decide)).2
     (mkValidMap "a" 1) (by decide)).2⟩

/-! ### C9: save is an update for an id already present -/

theorem find?_set_of_first {α : Type _} (p : α → Bool) (a : α)
    (hp : p a = true) :
    ∀ (l : List α) (j : Nat), j < l.length →
      (∀ k (hk : k < l.length), k < j → p l[k] = false) →
      (l.set j a).find? p = some a := by
  intro l
  induction l with
  | nil => intro j hj; cases hj
  | cons x xs ih =>
    intro j hj hfirst
    cases j with
    | zero =>
      rw [List.set_cons_zero]
      exact List.find?_cons_of_pos _ hp
    | succ j' =>
      rw [List.set_cons_succ]
      have hx : p x = false := hfirst 0 (Nat.succ_pos _) (Nat.succ_pos _)
      rw [List.find?_cons_of_neg _ (by simp [hx])]
      refine ih j' (by simpa using Nat.lt_of_succ_lt_succ hj) ?_
      intro k hk hkj
      have h1 := hfirst (k + 1) (Nat.succ_lt_succ hk) (Nat.succ_lt_succ hkj)
      simpa using h1

theorem saveMap_update (mp : Option (List RawMap)) (sett : Option SettingsVal)
    (m : RawMap) (g : String) (now : Nat) (j : Nat)
    (hid : truthyStr m.id = true)
    (hfind : (getAllMaps ⟨mp, sett, []⟩).findIdx?
        (fun x => x.id == (stamp now m).id) = some j) :
    saveMap m g now ⟨mp, sett, []⟩
      = (.ok (m.id.getD ""),
         ⟨some ((getAllMaps ⟨mp, sett, []⟩).set j (stamp now m)),
          sett, []⟩) := by
  simp only [saveMap]
  rw [if_pos hid, hfind]
  rfl

/-- C9: for a valid record whose id is already present in the Collection,
saving it (an update, not an insert) keeps the Collection size unchanged,
and `getMapById` returns the freshly stamped content after the first save
and after an identical second save. -/
theorem C9_idempotent_save (st : St) (m : RawMap) (i : String)
    (g1 g2 : String) (now1 now2 : Nat)
    (hfail : st.failures = [])
    (hm : validateMapData m = true) (hid : m.id = some i)
    (hpres : ∃ r ∈ getAllMaps st, r.id = some i) :
    (getAllMaps (saveMap m g1 now1 st).2).length
        = (getAllMaps st).length ∧
    getMapById i (saveMap m g1 now1 st).2 = some (stamp now1 m) ∧
    (getAllMaps (saveMap m g2 now2 (saveMap m g1 now1 st).2).2).length
        = (getAllMaps st).length ∧
    getMapById i (saveMap m g2 now2 (saveMap m g1 now1 st).2).2
        = some (stamp now2 m) := by
  obtain ⟨mp, sett, fl⟩ := st
  simp only at hfail
  subst hfail
  set C := getAllMaps ⟨mp, sett, []⟩ with hC
  have hv : ∀ x ∈ C, validateMapData x = true := mem_getAllMaps_valid _
  have htruthy : truthyStr m.id = true := ((validateMapData_iff m).mp hm).1
  have hpred1 : (fun x : RawMap => x.id == (stamp now1 m).id)
      = fun x : RawMap => x.id == some i := by
    funext x
    rw [stamp_id, hid]
  have hpred2 : (fun x : RawMap => x.id == (stamp now2 m).id)
      = fun x : RawMap => x.id == some i := by
    funext x
    rw [stamp_id, hid]
  obtain ⟨r, hr, hrid⟩ := hpres
  -- the first save finds the existing record
  have hexists : ¬C.findIdx? (fun x => x.id == some i) = none := by
    rw [List.findIdx?_eq_none_iff]
    intro hall
    have := hall r hr
    simp [hrid] at this
  obtain ⟨j, hj⟩ : ∃ j, C.findIdx? (fun x => x.id == some i) = some j := by
    cases h : C.findIdx? (fun x => x.id == some i) with
    | none => exact absurd h hexists
    | some j => exact ⟨j, rfl⟩
  obtain ⟨hjlt, hpj, hfirst⟩ := List.findIdx?_eq_some_iff_getElem.mp hj
  have hfirstF : ∀ k (hk : k < C.length), k < j →
      ((fun x : RawMap => x.id == some i) C[k]) = false := by
    intro k hk hkj
    simpa using hfirst k hkj
  have hsave1 : saveMap m g1 now1 ⟨mp, sett, []⟩
      = (.ok (m.id.getD ""),
         ⟨some (C.set j (stamp now1 m)), sett, []⟩) := by
    have h1 := saveMap_update mp sett m g1 now1 j htruthy
      (by rw [hpred1, ← hC]; exact hj)
    rwa [← hC] at h1
  have hm1id : (stamp now1 m).id = some i := by rw [stamp_id]; exact hid
  have hm2id : (stamp now2 m).id = some i := by rw [stamp_id]; exact hid
  have hv1 : ∀ x ∈ C.set j (stamp now1 m), validateMapData x = true := by
    intro x hx
    rcases List.mem_or_eq_of_mem_set hx with hx | rfl
    · exact hv x hx
    · exact validateMapData_stamp now1 m hm
  have hall1 : getAllMaps ⟨some (C.set j (stamp now1 m)), sett, []⟩
      = C.set j (stamp now1 m) := getAllMaps_eq_self _ _ _ hv1
  have hfind2 : (C.set j (stamp now1 m)).findIdx?
      (fun x => x.id == some i) = some j := by
    rw [List.findIdx?_eq_some_iff_getElem]
    refine ⟨by simpa using hjlt, ?_, ?_⟩
    · rw [List.getElem_set_self]
      simp [hm1id]
    · intro k hkj
      have hkC : k < C.length := lt_trans hkj hjlt
      rw [List.getElem_set_ne (by omega : j ≠ k)]
      exact hfirst k hkj
  have hsave2 : saveMap m g2 now2 ⟨some (C.set j (stamp now1 m)), sett, []⟩
      = (.ok (m.id.getD ""),
         ⟨some (C.set j (stamp now2 m)), sett, []⟩) := by
    have h2 := saveMap_update (some (C.set j (stamp now1 m))) sett m g2
      now2 j htruthy (by rw [hpred2, hall1]; exact hfind2)
    rwa [hall1, List.set_set] at h2
  have hv2 : ∀ x ∈ C.set j (stamp now2 m), validateMapData x = true := by
    intro x hx
    rcases List.mem_or_eq_of_mem_set hx with hx | rfl
    · exact hv x hx
    · exact validateMapData_stamp now2 m hm
  have hall2 : getAllMaps ⟨some (C.set j (stamp now2 m)), sett, []⟩
      = C.set j (stamp now2 m) := getAllMaps_eq_self _ _ _ hv2
  rw [hsave1]
  refine ⟨?_, ?_, ?_, ?_⟩
  · rw [hall1, List.length_set]
  · unfold getMapById
    rw [hall1]
    exact find?_set_of_first _ _ (by simp [hm1id]) C j hjlt hfirstF
  · rw [hsave2, hall2, List.length_set]
  · rw [hsave2]
    unfold getMapById
    rw [hall2]
    exact find?_set_of_first _ _ (by simp [hm2id]) C j hjlt hfirstF

/-- C9 witness: saving the record with id `a` twice into the one-record
store keeps one record and `getMapById` returns the stamped content after
each save. -/
theorem C9_idempotent_save_witness :
    (getAllMaps (saveMap (mkValidMap "a" 1) "g" 3 stOne).2).length
        = (getAllMaps stOne).length ∧
    getMapById "a" (saveMap (mkValidMap "a" 1) "g" 3 stOne).2
        = some (stamp 3 (mkValidMap "a" 1)) ∧
    (getAllMaps (saveMap (mkValidMap "a" 1) "g" 4
        (saveMap (mkValidMap "a" 1) "g" 3 stOne).2).2).length
        = (getAllMaps stOne).length ∧
    getMapById "a" (saveMap (mkValidMap "a" 1) "g" 4
        (saveMap (mkValidMap "a" 1) "g" 3 stOne).2).2
        = some (stamp 4 (mkValidMap "a" 1)) :=
  C9_idempotent_save stOne (mkValidMap "a" 1) "a" "g" "g" 3 4 rfl
    (by decide) rfl ⟨mkValidMap "a" 1, by decide, rfl⟩

/-! ### C8: migration -/

theorem needsMigration_iff (toV : String) (m : RawMap) :
    needsMigration toV m = true ↔
      (m.version = none ∨ m.version = some "" ∨ m.version ≠ some toV) := by
  cases hv : m.version with
  | none => simp [needsMigration, truthyStr, hv]
  | some v =>
    simp only [needsMigration, hv, truthyStr, Bool.or_eq_true,
      Bool.not_eq_true', bne_iff_ne, ne_eq, Option.some.injEq]
    by_cases h1 : v = "" <;> by_cases h2 : v = toV <;> simp [h1, h2]

theorem applyMigrations_fields (now : Nat) (m : RawMap) :
    (applyMigrations now m).created
        = (if m.created.isSome then m.created else some now) ∧
    (applyMigrations now m).modified
        = (if m.modified.isSome then m.modified
           else if m.created.isSome then m.created else some now) ∧
    (applyMigrations now m).center
        = (if m.center.isSome then m.center else some defaultCenter) ∧
    (applyMigrations now m).zoom
        = (if jsTruthyNum m.zoom then m.zoom else some 6) ∧
    (applyMigrations now m).id = m.id ∧
    (applyMigrations now m).title = m.title := by
  unfold applyMigrations
  cases hmk : m.markers <;>
    by_cases h1 : m.created.isSome <;>
      by_cases h2 : m.modified.isSome <;>
        by_cases h3 : m.center.isSome <;>
          by_cases h4 : jsTruthyNum m.zoom = true <;>
            simp [h1, h2, h3, h4, hmk]

/-- C8 counterexample: migrating a record whose `zoom` is present but 0
overwrites that zoom with the default 6 — the backfill fires on JS-falsy
fields, not only on absent ones as the claim states. -/
theorem C8_counterexample :
    mZoomZero.zoom = some 0 ∧
    Option.map (fun l => l.map RawMap.zoom)
        (migrateMaps "0.9.0" "1.0.0" 7 stZoomZero).2.maps
      = some [some 6] :=
  ⟨rfl, rfl⟩

/-- C8 (amended): `migrateMaps` reports success with the count of records
whose `version` is missing, empty, or different from `toVersion`; it writes
the collection back exactly when that count is positive and leaves the
state untouched otherwise; each migrated record is the backfilled record
stamped with the new version, and the backfill defaults `center`, `zoom`,
`created` and `modified` exactly when those fields are absent **or
JS-falsy** (in particular a present `zoom` of 0 is replaced by 6), leaving
id and title unchanged. -/
theorem C8_migrate_contract (st : St) (fromV toV : String) (now : Nat)
    (hfail : st.failures = []) :
    (migrateMaps fromV toV now st).1
      = .ok (((getAllMaps st).filter (needsMigration toV)).length,
             (getAllMaps st).length) ∧
    (((getAllMaps st).filter (needsMigration toV)).length = 0 →
       (migrateMaps fromV toV now st).2 = st) ∧
    (0 < ((getAllMaps st).filter (needsMigration toV)).length →
       (migrateMaps fromV toV now st).2.maps
         = some ((getAllMaps st).map (fun m =>
             if needsMigration toV m then
               { applyMigrations now m with version := some toV }
             else m))) ∧
    (∀ m : RawMap, needsMigration toV m = true ↔
       (m.version = none ∨ m.version = some "" ∨ m.version ≠ some toV)) ∧
    (∀ m : RawMap,
       (applyMigrations now m).created
           = (if m.created.isSome then m.created else some now) ∧
       (applyMigrations now m).modified
           = (if m.modified.isSome then m.modified
              else if m.created.isSome then m.created else some now) ∧
       (applyMigrations now m).center
           = (if m.center.isSome then m.center else some defaultCenter) ∧
       (applyMigrations now m).zoom
           = (if jsTruthyNum m.zoom then m.zoom else some 6) ∧
       (applyMigrations now m).id = m.id ∧
       (applyMigrations now m).title = m.title) := by
  obtain ⟨mp, sett, fl⟩ := st
  simp only at hfail
  subst hfail
  by_cases hcount :
      0 < ((getAllMaps ⟨mp, sett, []⟩).filter (needsMigration toV)).length
  · have hrun : migrateMaps fromV toV now ⟨mp, sett, []⟩
        = (.ok (((getAllMaps ⟨mp, sett, []⟩).filter
                  (needsMigration toV)).length,
                (getAllMaps ⟨mp, sett, []⟩).length),
           ⟨some ((getAllMaps ⟨mp, sett, []⟩).map (fun m =>
              if needsMigration toV m then
                { applyMigrations now m with version := some toV }
              else m)), sett, []⟩) := by
      simp only [migrateMaps]
      rw [if_pos hcount]
      rfl
    refine ⟨by rw [hrun], fun h0 => absurd hcount (by omega), ?_, ?_, ?_⟩
    · intro _
      rw [hrun]
    · exact needsMigration_iff toV
    · exact applyMigrations_fields now
  · have hrun : migrateMaps fromV toV now ⟨mp, sett, []⟩
        = (.ok (((getAllMaps ⟨mp, sett, []⟩).filter
                  (needsMigration toV)).length,
                (getAllMaps ⟨mp, sett, []⟩).length),
           ⟨mp, sett, []⟩) := by
      simp only [migrateMaps]
      rw [if_neg hcount]
    refine ⟨by rw [hrun], fun _ => by rw [hrun], ?_, ?_, ?_⟩
    · intro h
      exact absurd h hcount
    · exact needsMigration_iff toV
    · exact applyMigrations_fields now

/-- C8 witness: the contract applied to the store holding `mZoomZero`. -/
theorem C8_migrate_contract_witness :
    (migrateMaps "0.9.0" "1.0.0" 7 stZoomZero).1 = .ok (1, 1) ∧
    (migrateMaps "0.9.0" "1.0.0" 7 stZoomZero).2.maps
      = some ((getAllMaps stZoomZero).map (fun m =>
          if needsMigration "1.0.0" m then
            { applyMigrations 7 m with version := some "1.0.0" }
          else m)) :=
  ⟨(C8_migrate_contract stZoomZero "0.9.0" "1.0.0" 7 rfl).1,
   (C8_migrate_contract stZoomZero "0.9.0" "1.0.0" 7 rfl).2.2.1
     (by decide)⟩

/-! ### C6: the import pipeline -/

theorem saveSettings_maps (s : SettingsVal) (st : St) :
    (saveSettings s st).maps = st.maps := by
  obtain ⟨mp, sett, fl⟩ := st
  unfold saveSettings setItemSettings popFailure
  cases fl with
  | nil => rfl
  | cons f fs => cases f <;> rfl

theorem importLoop_spec (gen : Nat → String) (now : Nat) :
    ∀ (l : List RawMap) (j : Nat),
      (importLoop gen now l j).2.1 = (l.filter validateMapData).length ∧
      (importLoop gen now l j).2.2
        = (l.filter (fun m => !validateMapData m)).length ∧
      (importLoop gen now l j).1.length
        = (l.filter validateMapData).length ∧
      (∀ a ∈ (importLoop gen now l j).1,
        (∃ k, a.id = some (gen k)) ∧ a.imported = some now ∧
          a.modified = some now) := by
  intro l
  induction l with
  | nil =>
    intro j
    exact ⟨rfl, rfl, rfl, by intro a ha; cases ha⟩
  | cons m rest ih =>
    intro j
    by_cases h : validateMapData m = true
    · have hloop : importLoop gen now (m :: rest) j
          = ({ m with
                id := some (gen j)
                imported := some now
                modified := some now } :: (importLoop gen now rest (j + 1)).1,
             (importLoop gen now rest (j + 1)).2.1 + 1,
             (importLoop gen now rest (j + 1)).2.2) := by
        simp only [importLoop]
        rw [if_pos h]
      obtain ⟨ih1, ih2, ih3, ih4⟩ := ih (j + 1)
      rw [hloop]
      refine ⟨?_, ?_, ?_, ?_⟩
      · simp [List.filter_cons, h, ih1]
      · simp [List.filter_cons, h, ih2]
      · simp [List.filter_cons, h, ih3]
      · intro a ha
        rcases List.mem_cons.mp ha with rfl | ha
        · exact ⟨⟨j, rfl⟩, rfl, rfl⟩
        · exact ih4 a ha
    · have hloop : importLoop gen now (m :: rest) j
          = ((importLoop gen now rest j).1,
             (importLoop gen now rest j).2.1,
             (importLoop gen now rest j).2.2 + 1) := by
        simp only [importLoop]
        rw [if_neg h]
      obtain ⟨ih1, ih2, ih3, ih4⟩ := ih j
      rw [hloop]
      refine ⟨?_, ?_, ?_, fun a ha => ih4 a ha⟩
      · simp [List.filter_cons, h, ih1]
      · simp [List.filter_cons, h, ih2]
      · simp [List.filter_cons, h, ih3]

/-- C6: importing a well-formed envelope appends one record per incoming
record that passes map validation, giving it a freshly generated id — never
a source id, provided the generated ids avoid the batch's ids — and newly
stamped `imported`/`modified` fields; invalid records are only counted as
skipped and the batch completes; and the retention cap is applied exactly
once, to the base collection plus all appended records. -/
theorem C6_import_contract (st : St) (replace : Bool) (gen : Nat → String)
    (now : Nat) (incoming : List RawMap) (sF : Option SettingsVal)
    (hfail : st.failures = [])
    (hfresh : ∀ k, ∀ src ∈ incoming, some (gen k) ≠ src.id) :
    ∃ appended : List RawMap,
      (importMaps (some ⟨.arr incoming, sF⟩) replace gen now st).1
          = .ok ⟨(incoming.filter validateMapData).length,
                 (incoming.filter (fun m => !validateMapData m)).length,
                 (enforceMapLimit ((if replace then [] else getAllMaps st)
                   ++ appended)).length⟩ ∧
      (importMaps (some ⟨.arr incoming, sF⟩) replace gen now st).2.maps
          = some (enforceMapLimit ((if replace then [] else getAllMaps st)
              ++ appended)) ∧
      appended.length = (incoming.filter validateMapData).length ∧
      ∀ a ∈ appended,
        (∃ k, a.id = some (gen k)) ∧ a.imported = some now ∧
          a.modified = some now ∧ ∀ src ∈ incoming, a.id ≠ src.id := by
  obtain ⟨mp, sett, fl⟩ := st
  simp only at hfail
  subst hfail
  obtain ⟨h1, h2, h3, h4⟩ := importLoop_spec gen now incoming 0
  refine ⟨(importLoop gen now incoming 0).1, ?_, ?_, h3, ?_⟩
  · have hres : (importMaps (some ⟨.arr incoming, sF⟩) replace gen now
        ⟨mp, sett, []⟩).1
        = .ok ⟨(importLoop gen now incoming 0).2.1,
               (importLoop gen now incoming 0).2.2,
               (enforceMapLimit
                 ((if replace then [] else getAllMaps ⟨mp, sett, []⟩)
                   ++ (importLoop gen now incoming 0).1)).length⟩ := rfl
    rw [hres, h1, h2]
  · set F := enforceMapLimit
        ((if replace then [] else getAllMaps ⟨mp, sett, []⟩)
          ++ (importLoop gen now incoming 0).1) with hF
    have hstep : (importMaps (some ⟨.arr incoming, sF⟩) replace gen now
        ⟨mp, sett, []⟩).2
        = (if (sF.isSome && !replace) = true
            then saveSettings
              (jsSpread (getSettings ⟨some F, sett, []⟩) (sF.getD []))
              ⟨some F, sett, []⟩
            else ⟨some F, sett, []⟩) := rfl
    rw [hstep]
    split
    · rw [saveSettings_maps]
    · rfl
  · intro a ha
    obtain ⟨⟨k, hk⟩, him, hmod⟩ := h4 a ha
    refine ⟨⟨k, hk⟩, him, hmod, ?_⟩
    intro src hsrc
    rw [hk]
    exact hfresh k src hsrc

/-- C6 witness: the import contract applied to a concrete two-record batch
(one valid, one invalid) with a constant fresh-id generator. -/
theorem C6_import_contract_witness :
    ∃ appended : List RawMap,
      (importMaps (some ⟨.arr importIncoming, none⟩) true genW 9 stOne).1
          = .ok ⟨(importIncoming.filter validateMapData).length,
                 (importIncoming.filter
                   (fun m => !validateMapData m)).length,
                 (enforceMapLimit ((if true then [] else getAllMaps stOne)
                   ++ appended)).length⟩ ∧
      (importMaps (some ⟨.arr importIncoming, none⟩) true genW 9
          stOne).2.maps
          = some (enforceMapLimit ((if true then [] else getAllMaps stOne)
              ++ appended)) ∧
      appended.length = (importIncoming.filter validateMapData).length ∧
      ∀ a ∈ appended,
        (∃ k, a.id = some (genW k)) ∧ a.imported = some 9 ∧
          a.modified = some 9 ∧ ∀ src ∈ importIncoming, a.id ≠ src.id :=
  C6_import_contract stOne true genW 9 importIncoming none rfl
    (by
      intro k src hsrc
      rcases List.mem_cons.mp hsrc with rfl | hsrc
      · simp only [genW]
        decide
      · rcases List.mem_cons.mp hsrc with rfl | hsrc
        · simp only [genW]
          decide
        · cases hsrc)

/-! ### Sorting lemmas shared by the eviction proofs -/

theorem byCreated_trans : ∀ a b c : RawMap, byCreated a b = true →
    byCreated b c = true → byCreated a c = true := by
  intro a b c
  simp only [byCreated, decide_eq_true_eq]
  exact Nat.le_trans

theorem byCreated_total : ∀ a b : RawMap,
    (byCreated a b || byCreated b a) = true := by
  intro a b
  simp only [byCreated, Bool.or_eq_true, decide_eq_true_eq]
  exact Nat.le_total _ _

/-- Dropping the first `q` entries of the creation-sorted copy of `L` (the
shape shared by `enforceMapLimit` and the quota remediation) keeps
`L.length - q` records of `L`, with pairwise-distinct creation times, and
every record of `L` whose creation time was dropped is strictly older than
every survivor. -/
theorem drop_sorted_spec (L : List RawMap) (q : Nat)
    (hnd : (L.map createdVal).Nodup) :
    ((L.mergeSort byCreated).drop q).length = L.length - q ∧
    (∀ x ∈ (L.mergeSort byCreated).drop q, x ∈ L) ∧
    (((L.mergeSort byCreated).drop q).map createdVal).Nodup ∧
    (∀ x ∈ L,
      createdVal x ∉ ((L.mergeSort byCreated).drop q).map createdVal →
      ∀ s ∈ (L.mergeSort byCreated).drop q,
        createdVal x < createdVal s) := by
  have hperm : (L.mergeSort byCreated).Perm L := List.mergeSort_perm L byCreated
  have hlen : (L.mergeSort byCreated).length = L.length := hperm.length_eq
  have hsort : (L.mergeSort byCreated).Pairwise
      (fun a b => byCreated a b = true) :=
    List.sorted_mergeSort byCreated_trans byCreated_total L
  have hndM : ((L.mergeSort byCreated).map createdVal).Nodup :=
    ((hperm.map createdVal).nodup_iff).mpr hnd
  refine ⟨by rw [List.length_drop, hlen], ?_, ?_, ?_⟩
  · intro x hx
    exact hperm.mem_iff.mp (List.mem_of_mem_drop hx)
  · rw [List.map_drop]
    exact hndM.sublist (List.drop_sublist _ _)
  · intro x hxL hxnot s hs
    have hxM : x ∈ L.mergeSort byCreated := hperm.mem_iff.mpr hxL
    have hxtake : x ∈ (L.mergeSort byCreated).take q := by
      have := List.take_append_drop q (L.mergeSort byCreated)
      rcases List.mem_append.mp (by rw [this]; exact hxM) with h | h
      · exact h
      · exact absurd (List.mem_map_of_mem createdVal h) hxnot
    have hcross : ∀ a ∈ (L.mergeSort byCreated).take q,
        ∀ b ∈ (L.mergeSort byCreated).drop q, byCreated a b = true := by
      have hp : ((L.mergeSort byCreated).take q
          ++ (L.mergeSort byCreated).drop q).Pairwise
          (fun a b => byCreated a b = true) := by
        rw [List.take_append_drop]
        exact hsort
      exact (List.pairwise_append.mp hp).2.2
    have hle : createdVal x ≤ createdVal s := by
      have := hcross x hxtake s hs
      simpa [byCreated] using this
    have hne : createdVal x ≠ createdVal s := by
      have hsplit : (L.mergeSort byCreated).map createdVal
          = ((L.mergeSort byCreated).take q).map createdVal
            ++ ((L.mergeSort byCreated).drop q).map createdVal := by
        rw [← List.map_append, List.take_append_drop]
      have hdisj := (List.nodup_append.mp (hsplit ▸ hndM)).2.2
      intro heq
      exact hdisj (List.mem_map_of_mem createdVal hxtake)
        (heq ▸ List.mem_map_of_mem createdVal hs)
    exact lt_of_le_of_ne hle hne

/-! ### C5: quota remediation -/

/-- C5 (amended): when the store write fails with `QuotaExceededError`,
`saveMap` surfaces a capacity error without retrying the save, after a
single remediation pass; that pass evicts the oldest
`Math.floor(25%)` of the stored records **only when more than 10 records
are stored** — it removes the 5 oldest of a 20-record collection, leaving
15, but with 10 or fewer records it evicts nothing at all. -/
theorem C5_quota_remediation (st : St) (L : List RawMap) (m : RawMap)
    (gid : String) (now : Nat)
    (hmaps : st.maps = some L)
    (hvalid : ∀ x ∈ L, validateMapData x = true)
    (hnd : (L.map createdVal).Nodup)
    (hsched : st.failures = [some "QuotaExceededError", none]) :
    (saveMap m gid now st).1
      = .error ⟨"Error",
        "Espace de stockage insuffisant. Supprimez quelques cartes anciennes."⟩ ∧
    (L.length ≤ 10 → (saveMap m gid now st).2.maps = some L) ∧
    (10 < L.length →
      ∃ S, (saveMap m gid now st).2.maps = some S ∧
        (saveMap m gid now st).2.failures = [] ∧
        S.length = L.length - L.length / 4 ∧
        (∀ x ∈ S, x ∈ L) ∧
        (∀ x ∈ L, createdVal x ∉ S.map createdVal →
          ∀ s ∈ S, createdVal x < createdVal s)) := by
  obtain ⟨mp, sett, fl⟩ := st
  simp only at hmaps hsched
  subst hmaps
  subst hsched
  have hsave : saveMap m gid now
      ⟨some L, sett, [some "QuotaExceededError", none]⟩
      = (.error ⟨"Error",
          "Espace de stockage insuffisant. Supprimez quelques cartes anciennes."⟩,
         handleStorageQuotaExceeded ⟨some L, sett, [none]⟩) := rfl
  rw [hsave]
  refine ⟨rfl, ?_, ?_⟩
  · intro hle
    have hq : handleStorageQuotaExceeded ⟨some L, sett, [none]⟩
        = ⟨some L, sett, [none]⟩ := by
      simp only [handleStorageQuotaExceeded]
      rw [getAllMaps_eq_self _ _ _ hvalid, if_neg (by omega)]
    rw [hq]
  · intro hgt
    have hq : handleStorageQuotaExceeded ⟨some L, sett, [none]⟩
        = ⟨some ((L.mergeSort byCreated).drop (L.length / 4)), sett, []⟩ := by
      simp only [handleStorageQuotaExceeded]
      rw [getAllMaps_eq_self _ _ _ hvalid, if_pos (by omega)]
      rfl
    rw [hq]
    obtain ⟨hlen, hmem, _, hdom⟩ := drop_sorted_spec L (L.length / 4) hnd
    exact ⟨_, rfl, rfl, hlen, hmem, hdom⟩

/-- C5 counterexample: with only 8 stored records, a quota failure triggers
no eviction at all — the store still holds all 8 records afterwards,
although the claim promises the oldest 25% (two records) are evicted. -/
theorem C5_counterexample :
    (saveMap (mkValidMap "n" 99) "g" 99 st8).2.maps = some maps8 ∧
    maps8.length = 8 :=
  ⟨rfl, rfl⟩

/-- C5 witness: the amended theorem applied to the 20-record store: the
remediation pass removes the 5 oldest-by-created maps, leaving 15, and the
capacity error is surfaced. -/
theorem C5_quota_remediation_witness :
    (saveMap (mkValidMap "n" 99) "g" 99 st20).1
      = .error ⟨"Error",
        "Espace de stockage insuffisant. Supprimez quelques cartes anciennes."⟩ ∧
    ∃ S, (saveMap (mkValidMap "n" 99) "g" 99 st20).2.maps = some S ∧
      (saveMap (mkValidMap "n" 99) "g" 99 st20).2.failures = [] ∧
      S.length = 15 ∧
      (∀ x ∈ S, x ∈ maps20) ∧
      (∀ x ∈ maps20, createdVal x ∉ S.map createdVal →
        ∀ s ∈ S, createdVal x < createdVal s) := by
  have h := C5_quota_remediation st20 maps20 (mkValidMap "n" 99) "g" 99
    rfl (by decide) (by decide) rfl
  obtain ⟨S, h1, h2, h3, h4, h5⟩ := h.2.2 (by decide)
  exact ⟨h.1, S, h1, h2, by rw [h3]; decide, h4, h5⟩

/-! ### C4: cap enforcement over a sequence of inserts -/

theorem goodInput_sublist {L1 L2 : List RawMap} (h : L1.Sublist L2)
    (hg : GoodInput L2) : GoodInput L1 :=
  ⟨fun x hx => hg.1 x (h.subset hx),
   hg.2.1.sublist (h.map createdVal),
   hg.2.2.sublist (h.map RawMap.id)⟩

theorem goodInput_snoc (L : List RawMap) (m : RawMap)
    (h : GoodInput (L ++ [m])) :
    GoodInput L ∧ validateMapData m = true ∧
    createdVal m ∉ L.map createdVal ∧ m.id ∉ L.map RawMap.id := by
  obtain ⟨h1, h2, h3⟩ := h
  rw [List.map_append] at h2 h3
  refine ⟨⟨fun x hx => h1 x (by simp [hx]), (List.nodup_append.mp h2).1,
    (List.nodup_append.mp h3).1⟩, h1 m (by simp), ?_, ?_⟩
  · intro hmem
    exact (List.nodup_append.mp h2).2.2 hmem (by simp)
  · intro hmem
    exact (List.nodup_append.mp h3).2.2 hmem (by simp)

theorem saveMap_insert (S : List RawMap) (sett : Option SettingsVal)
    (m : RawMap) (g : String) (now : Nat)
    (hv : ∀ x ∈ S, validateMapData x = true)
    (hid : truthyStr m.id = true)
    (hfresh : ∀ x ∈ S, x.id ≠ m.id) :
    saveMap m g now ⟨some S, sett, []⟩
      = (.ok (m.id.getD ""),
         ⟨some (enforceMapLimit (S ++ [stamp now m])), sett, []⟩) := by
  simp only [saveMap]
  rw [if_pos hid, getAllMaps_eq_self _ _ _ hv]
  have hnone : S.findIdx? (fun x => x.id == (stamp now m).id) = none := by
    rw [List.findIdx?_eq_none_iff]
    intro x hx
    simp only [stamp_id, beq_eq_false_iff_ne, ne_eq]
    exact hfresh x hx
  rw [hnone]
  rfl

theorem evict_one (L1 : List RawMap) (hnd : (L1.map createdVal).Nodup)
    (hlen : L1.length = MAX_MAPS + 1) :
    ∃ h t, L1.mergeSort byCreated = h :: t ∧
      enforceMapLimit L1 = t ∧
      h ∈ L1 ∧
      createdVal h ∉ t.map createdVal ∧
      (∀ s ∈ t, createdVal h ≤ createdVal s) := by
  have hperm : (L1.mergeSort byCreated).Perm L1 :=
    List.mergeSort_perm L1 byCreated
  have hplen : (L1.mergeSort byCreated).length = L1.length := hperm.length_eq
  obtain ⟨h, t, hht⟩ : ∃ h t, L1.mergeSort byCreated = h :: t := by
    cases hM : L1.mergeSort byCreated with
    | nil => rw [hM] at hplen; simp at hplen; omega
    | cons h t => exact ⟨h, t, rfl⟩
  refine ⟨h, t, hht, ?_, ?_, ?_, ?_⟩
  · unfold enforceMapLimit
    rw [if_pos (by omega : L1.length > MAX_MAPS), hlen,
      Nat.add_sub_cancel_left, hht]
    rfl
  · exact hperm.mem_iff.mp (by rw [hht]; exact List.mem_cons_self h t)
  · have hndM : ((L1.mergeSort byCreated).map createdVal).Nodup :=
      ((hperm.map createdVal).nodup_iff).mpr hnd
    rw [hht] at hndM
    simp only [List.map_cons, List.nodup_cons] at hndM
    exact hndM.1
  · have hsort := List.sorted_mergeSort byCreated_trans byCreated_total L1
    rw [hht] at hsort
    intro s hs
    have := (List.pairwise_cons.mp hsort).1 s hs
    simpa [byCreated] using this

theorem saveInv_step (C P S : List RawMap) (m : RawMap) (now : Nat)
    (hCP : GoodInput (C ++ P ++ [m]))
    (inv : SaveInv C P S) :
    SaveInv C (P ++ [m]) (enforceMapLimit (S ++ [stamp now m])) := by
  obtain ⟨hgood, hvm, hcm, him⟩ := goodInput_snoc (C ++ P) m hCP
  obtain ⟨hv, hsub, hids, hlen, hndS, hdom⟩ := inv
  have hvm' : validateMapData (stamp now m) = true :=
    validateMapData_stamp now m hvm
  have hv1 : ∀ x ∈ S ++ [stamp now m], validateMapData x = true := by
    intro x hx
    rcases List.mem_append.mp hx with hx | hx
    · exact hv x hx
    · rw [List.mem_singleton.mp hx]; exact hvm'
  have hcmS : createdVal m ∉ S.map createdVal := by
    intro hmem
    rcases List.mem_map.mp hmem with ⟨y, hy, hyc⟩
    exact hcm (hyc ▸ hsub y hy)
  have hnd1 : ((S ++ [stamp now m]).map createdVal).Nodup := by
    rw [List.map_append, List.nodup_append]
    refine ⟨hndS, List.nodup_singleton _, ?_⟩
    intro a haS ham
    simp only [List.map_cons, List.map_nil, List.mem_singleton] at ham
    rw [createdVal_stamp] at ham
    exact hcmS (ham ▸ haS)
  have hsub1 : ∀ x ∈ S ++ [stamp now m],
      createdVal x ∈ ((C ++ P) ++ [m]).map createdVal := by
    intro x hx
    rw [List.map_append]
    rcases List.mem_append.mp hx with hx | hx
    · exact List.mem_append.mpr (Or.inl (hsub x hx))
    · rw [List.mem_singleton.mp hx, createdVal_stamp]
      exact List.mem_append.mpr (Or.inr (by simp))
  have hids1 : ∀ x ∈ S ++ [stamp now m],
      x.id ∈ ((C ++ P) ++ [m]).map RawMap.id := by
    intro x hx
    rw [List.map_append]
    rcases List.mem_append.mp hx with hx | hx
    · exact List.mem_append.mpr (Or.inl (hids x hx))
    · rw [List.mem_singleton.mp hx, stamp_id]
      exact List.mem_append.mpr (Or.inr (by simp))
  have hpushlen : (S ++ [stamp now m]).length = S.length + 1 := by simp
  have hCPm : ((C ++ P) ++ [m]).length = (C ++ P).length + 1 := by
    rw [List.length_append]
    rfl
  unfold SaveInv
  simp only [← List.append_assoc]
  by_cases hcap : (S ++ [stamp now m]).length > MAX_MAPS
  · -- eviction: the list exceeds the cap by one and the oldest entry drops
    have hSlen : S.length = MAX_MAPS := by omega
    have ha : MAX_MAPS ≤ (C ++ P).length := by omega
    have hL1len : (S ++ [stamp now m]).length = MAX_MAPS + 1 := by omega
    obtain ⟨h, t, hht, henf, hhL1, hhnot, hhle⟩ := evict_one _ hnd1 hL1len
    obtain ⟨tlen, tmem, tnodup, tdom⟩ :=
      drop_sorted_spec (S ++ [stamp now m]) 1 hnd1
    rw [hht] at tlen tmem tnodup tdom
    simp only [List.drop_succ_cons, List.drop_zero] at tlen tmem tnodup tdom
    rw [henf]
    refine ⟨fun x hx => hv1 x (tmem x hx),
      fun x hx => hsub1 x (tmem x hx),
      fun x hx => hids1 x (tmem x hx), ?_, tnodup, ?_⟩
    · rw [hCPm]
      omega
    · intro x hx hxnot s hs
      by_cases hx1 : createdVal x ∈ (S ++ [stamp now m]).map createdVal
      · rcases List.mem_map.mp hx1 with ⟨y, hyL1, hyc⟩
        have hlt := tdom y hyL1 (by rw [hyc]; exact hxnot) s hs
        exact hyc ▸ hlt
      · have hxnotS : createdVal x ∉ S.map createdVal := by
          intro hc
          exact hx1 (by rw [List.map_append]
                        exact List.mem_append.mpr (Or.inl hc))
        have hxm : x ∈ C ++ P := by
          rcases List.mem_append.mp hx with hxl | hxl
          · exact hxl
          · exfalso
            apply hx1
            rw [List.mem_singleton.mp hxl, List.map_append]
            refine List.mem_append.mpr (Or.inr ?_)
            simp [createdVal_stamp]
        by_cases hcs : createdVal s ∈ S.map createdVal
        · rcases List.mem_map.mp hcs with ⟨y, hyS, hyc⟩
          have hlt := hdom x hxm hxnotS y hyS
          exact hyc ▸ hlt
        · have hsL1 : s ∈ S ++ [stamp now m] := tmem s hs
          have hsm : createdVal s = createdVal m := by
            rcases List.mem_append.mp hsL1 with hsl | hsl
            · exact absurd (List.mem_map_of_mem createdVal hsl) hcs
            · rw [List.mem_singleton.mp hsl, createdVal_stamp]
          have hhS : h ∈ S := by
            rcases List.mem_append.mp hhL1 with hh | hh
            · exact hh
            · exfalso
              apply hhnot
              rw [List.mem_singleton.mp hh, createdVal_stamp, ← hsm]
              exact List.mem_map_of_mem createdVal hs
          have h1 : createdVal x < createdVal h := hdom x hxm hxnotS h hhS
          have h2 : createdVal h ≤ createdVal s := hhle s hs
          omega
  · -- no eviction: everything so far still fits under the cap
    have henf : enforceMapLimit (S ++ [stamp now m]) = S ++ [stamp now m] := by
      unfold enforceMapLimit
      rw [if_neg hcap]
    rw [henf]
    have hfits : (C ++ P).length < MAX_MAPS := by omega
    have hSeq : ∀ c ∈ ((C ++ P).map createdVal), c ∈ S.map createdVal := by
      have hsubF : (S.map createdVal).toFinset
          ⊆ ((C ++ P).map createdVal).toFinset := by
        intro c hc
        rcases List.mem_map.mp (List.mem_toFinset.mp hc) with ⟨y, hy, hyc⟩
        exact List.mem_toFinset.mpr (hyc ▸ hsub y hy)
      have hcards : ((C ++ P).map createdVal).toFinset.card
          ≤ (S.map createdVal).toFinset.card := by
        rw [List.toFinset_card_of_nodup hndS,
          List.toFinset_card_of_nodup hgood.2.1]
        simp only [List.length_map]
        omega
      have hFeq := Finset.eq_of_subset_of_card_le hsubF hcards
      intro c hc
      exact List.mem_toFinset.mp (hFeq ▸ List.mem_toFinset.mpr hc)
    refine ⟨hv1, hsub1, hids1, ?_, hnd1, ?_⟩
    · rw [hCPm]
      omega
    · intro x hx hxnot s hs
      exfalso
      apply hxnot
      rw [List.map_append]
      rcases List.mem_append.mp hx with hxl | hxl
      · exact List.mem_append.mpr
          (Or.inl (hSeq _ (List.mem_map_of_mem createdVal hxl)))
      · refine List.mem_append.mpr (Or.inr ?_)
        rw [List.mem_singleton.mp hxl]
        simp [createdVal_stamp]

theorem saveAll_inv (now : Nat) (sett : Option SettingsVal)
    (C : List RawMap) :
    ∀ (rest P S : List RawMap),
      GoodInput (C ++ P ++ rest) →
      SaveInv C P S →
      ∃ S', saveAllNew rest now ⟨some S, sett, []⟩ = ⟨some S', sett, []⟩ ∧
        SaveInv C (P ++ rest) S' := by
  intro rest
  induction rest with
  | nil =>
    intro P S _ hinv
    refine ⟨S, rfl, ?_⟩
    rw [List.append_nil]
    exact hinv
  | cons m rest ih =>
    intro P S hg hinv
    have hsubl : (C ++ P ++ [m]).Sublist (C ++ P ++ (m :: rest)) :=
      List.Sublist.append_left ((List.nil_sublist rest).cons₂ m) (C ++ P)
    have hgPm : GoodInput (C ++ P ++ [m]) := goodInput_sublist hsubl hg
    obtain ⟨_, hvm, _, him⟩ := goodInput_snoc (C ++ P) m hgPm
    have hidm : truthyStr m.id = true := ((validateMapData_iff m).mp hvm).1
    have hfresh : ∀ x ∈ S, x.id ≠ m.id := by
      intro x hx heq
      exact him (heq ▸ hinv.2.2.1 x hx)
    have hstep := saveMap_insert S sett m "" now hinv.1 hidm hfresh
    have hcons : saveAllNew (m :: rest) now ⟨some S, sett, []⟩
        = saveAllNew rest now (saveMap m "" now ⟨some S, sett, []⟩).2 := rfl
    rw [hcons, hstep]
    have hg' : GoodInput (C ++ (P ++ [m]) ++ rest) := by
      have hre : C ++ (P ++ [m]) ++ rest = C ++ P ++ (m :: rest) := by
        simp
      rw [hre]
      exact hg
    have hinv' : SaveInv C (P ++ [m])
        (enforceMapLimit (S ++ [stamp now m])) :=
      saveInv_step C P S m now hgPm hinv
    obtain ⟨S', hrun, hinv''⟩ := ih (P ++ [m]) _ hg' hinv'
    refine ⟨S', hrun, ?_⟩
    have hre2 : P ++ [m] ++ rest = P ++ (m :: rest) := by simp
    rwa [hre2] at hinv''

/-- C4: starting from a stored collection of at most `MAX_MAPS` validated
records and saving new distinct valid maps (fresh ids, pairwise-distinct
creation times) until the total exceeds the cap, the store ends with
exactly `MAX_MAPS` records, whose creation times are drawn without
repetition from the inserted records, and every record whose creation time
did not survive is strictly older than every survivor — the survivors are
the `MAX_MAPS` most-recently-created ones, the oldest are evicted. -/
theorem C4_cap_enforcement (st : St) (C l : List RawMap) (now : Nat)
    (hmaps : st.maps = some C)
    (hfail : st.failures = [])
    (hgood : GoodInput (C ++ l))
    (hC : C.length ≤ MAX_MAPS)
    (hover : MAX_MAPS < C.length + l.length) :
    ∃ S, (saveAllNew l now st).maps = some S ∧
      getAllMaps (saveAllNew l now st) = S ∧
      S.length = MAX_MAPS ∧
      (∀ s ∈ S, createdVal s ∈ (C ++ l).map createdVal) ∧
      (S.map createdVal).Nodup ∧
      (∀ x ∈ C ++ l, createdVal x ∉ S.map createdVal →
        ∀ s ∈ S, createdVal x < createdVal s) := by
  obtain ⟨mp, sett, fl⟩ := st
  simp only at hmaps hfail
  subst hmaps
  subst hfail
  have hvC : ∀ x ∈ C, validateMapData x = true := fun x hx =>
    hgood.1 x (List.mem_append.mpr (Or.inl hx))
  have hbase : SaveInv C [] C := by
    refine ⟨hvC, ?_, ?_, ?_, ?_, ?_⟩
    · intro x hx
      rw [List.append_nil]
      exact List.mem_map_of_mem _ hx
    · intro x hx
      rw [List.append_nil]
      exact List.mem_map_of_mem _ hx
    · rw [List.append_nil]
      omega
    · exact hgood.2.1.sublist ((List.sublist_append_left C l).map createdVal)
    · intro x hx hc s hs
      rw [List.append_nil] at hx
      exact absurd (List.mem_map_of_mem createdVal hx) hc
  have hgood0 : GoodInput (C ++ [] ++ l) := by
    rw [List.append_nil]
    exact hgood
  obtain ⟨S, hrun, hinv⟩ := saveAll_inv now sett C l [] C hgood0 hbase
  obtain ⟨hv', hsub', _, hlen', hnd', hdom'⟩ := hinv
  simp only [List.nil_append] at hv' hsub' hlen' hnd' hdom'
  have hlenCl : (C ++ l).length = C.length + l.length := List.length_append C l
  refine ⟨S, ?_, ?_, ?_, hsub', hnd', hdom'⟩
  · rw [hrun]
  · rw [hrun]
    exact getAllMaps_eq_self _ _ _ hv'
  · omega

/-- C4 witness: inserting `MAX_MAPS + 1` distinct new maps into an empty
store leaves exactly `MAX_MAPS` records, the most recent ones. -/
theorem C4_cap_enforcement_witness :
    ∃ S, (saveAllNew c4maps 99 ⟨some [], none, []⟩).maps = some S ∧
      getAllMaps (saveAllNew c4maps 99 ⟨some [], none, []⟩) = S ∧
      S.length = MAX_MAPS ∧
      (∀ s ∈ S, createdVal s ∈ (([] : List RawMap) ++ c4maps).map createdVal) ∧
      (S.map createdVal).Nodup ∧
      (∀ x ∈ ([] : List RawMap) ++ c4maps,
        createdVal x ∉ S.map createdVal →
        ∀ s ∈ S, createdVal x < createdVal s) :=
  C4_cap_enforcement ⟨some [], none, []⟩ [] c4maps 99 rfl rfl
    ⟨by decide, by decide, by decide⟩ (by decide) (by decide)

end MapStorage
